import Mathlib

/-!
Verification model of the Blockchain messaging repository.

The definitions below are a shallow embedding of the core of the
repository: the SQLAlchemy Message model (app/db/models.py), the
blockchain service adapter (app/services/blockchain.py), the
notarization worker and reconciliation sweep (app/services/notarization.py),
the websocket connection manager (app/services/websocket.py) and the
websocket endpoint message loop (app/api/endpoints/websocket.py).

Conventions of the embedding:
- The database table of messages is a list of Message records; the
  SQLAlchemy query filter(Message.id == i).first() is List.find?, the
  primary-key update through an ORM object is a map that rewrites the
  record with the matching id, and an insert is an append with a fresh id.
- Effectful calls to the external ledger are modelled by a LedgerEnv of
  oracles describing the outcome of each RPC call, and every ledger
  operation additionally returns the list of LedgerEvent effects it
  performed, so that the claims about which calls happen are statable.
- Python truthiness of an optional string column (if message.blockchain_tx_hash,
  if tx_hash) is optTruthy: None and the empty string are falsy.
- Exceptions that the source catches and converts to a None return or to
  an error frame are folded into the corresponding Option results; the
  totality of the Lean functions reflects the catch-all handlers.
-/

/-- Record of the messages table (app/db/models.py, class Message). -/
structure Message where
  id : Nat
  sender_id : Nat
  receiver_id : Nat
  encrypted_payload : String
  message_hash : String
  blockchain_tx_hash : Option String
  timestamp : Nat
deriving DecidableEq

/-- Python truthiness of an optional string: None and the empty string are
falsy, every other string is truthy. -/
def optTruthy : Option String → Bool
  | none => false
  | some s => !s.isEmpty

/-- The hex prefix constant used by the blockchain service. -/
def zeroX : String := "0x"

/-- Character-level model of the startswith check of
BlockchainService.register_hash / verify_hash. -/
def startsWith0x (h : String) : Bool := decide (h.data.take 2 = zeroX.data)

/-- The hash normalization both verify_hash and register_hash perform:
prepend the 0x prefix when it is absent (app/services/blockchain.py). -/
def normalizeHash (h : String) : String :=
  if startsWith0x h then h else zeroX ++ h

/-- Oracle describing the external ledger and the configuration of the
blockchain service: whether the contract and the signing account were
loaded at startup, the outcome of each verifyHash contract call (a call
that raises is folded into false, as the source's except branch returns
False), and the outcome of each raw-transaction submission (None for any
exception on the nonce/build/sign/send path). -/
structure LedgerEnv where
  contractLoaded : Bool
  accountLoaded : Bool
  verifyResult : String → Bool
  submitResult : String → Option String

/-- Observable effects performed against the ledger. -/
inductive LedgerEvent where
  | verifyCall (h : String)
  | submitTx (h : String)
deriving DecidableEq

/-- BlockchainService.verify_hash: returns False when the contract is not
initialized, otherwise the outcome of the verifyHash contract call on the
normalized hash (exceptions fold into False). -/
def verify_hash (env : LedgerEnv) (h : String) : Bool :=
  if env.contractLoaded then env.verifyResult (normalizeHash h) else false

/-- BlockchainService.register_hash: returns None without touching the
ledger when the contract or the account is missing; otherwise normalizes
the hash, checks registration state via verify_hash first, returns None
with no submission when already registered, and otherwise submits,
returning the transaction hash or None on failure. The second component
is the trace of ledger effects performed. -/
def register_hash (env : LedgerEnv) (message_hash : String) :
    Option String × List LedgerEvent :=
  if !env.contractLoaded then (none, [])
  else if !env.accountLoaded then (none, [])
  else
    let h := normalizeHash message_hash
    if verify_hash env h then (none, [LedgerEvent.verifyCall (normalizeHash h)])
    else
      match env.submitResult (normalizeHash h) with
      | some tx =>
          (some tx, [LedgerEvent.verifyCall (normalizeHash h), LedgerEvent.submitTx (normalizeHash h)])
      | none =>
          (none, [LedgerEvent.verifyCall (normalizeHash h), LedgerEvent.submitTx (normalizeHash h)])

/-- The primary-key update performed by notarize_message_async when it
writes the transaction hash back: rewrite the record whose id matches. -/
def setTx (mid : Nat) (txh : String) (m : Message) : Message :=
  if m.id == mid then { m with blockchain_tx_hash := some txh } else m

/-- notarize_message_async (app/services/notarization.py): load the
message by id (absent: report and stop); skip when a truthy transaction
hash is already present; otherwise call register_hash and, on a truthy
result, write it back. Returns the updated store, the value the Python
function returns, and the ledger-effect trace. The catch-all except
branch of the source (log and rollback) is reflected by totality: no
failure escapes this function. -/
def notarize_message_async (env : LedgerEnv) (store : List Message) (message_id : Nat) :
    List Message × Option String × List LedgerEvent :=
  match store.find? (fun m => m.id == message_id) with
  | none => (store, none, [])
  | some message =>
    if optTruthy message.blockchain_tx_hash then (store, none, [])
    else
      let res := register_hash env message.message_hash
      match res.1 with
      | some txh =>
          if txh.isEmpty then (store, none, res.2)
          else (store.map (setTx message_id txh), some txh, res.2)
      | none => (store, none, res.2)

/-- One step of the sweep loop: notarize one selected message and extend
the effect trace. -/
def sweepStep (env : LedgerEnv) (acc : List Message × List LedgerEvent) (m : Message) :
    List Message × List LedgerEvent :=
  let r := notarize_message_async env acc.1 m.id
  (r.1, acc.2 ++ r.2.2)

/-- retry_failed_notarizations with an explicit batch limit: select up to
batch messages whose blockchain_tx_hash column is NULL (the SQL is_(None)
filter), return immediately when none are pending, otherwise notarize
each selected message in order. -/
def sweep_limit (env : LedgerEnv) (store : List Message) (batch : Nat) :
    List Message × List LedgerEvent :=
  let pending := (store.filter (fun m => m.blockchain_tx_hash.isNone)).take batch
  if pending.isEmpty then (store, [])
  else pending.foldl (sweepStep env) (store, [])

/-- retry_failed_notarizations (app/services/notarization.py): the sweep
with the source's hard-coded limit(100). -/
def retry_failed_notarizations (env : LedgerEnv) (store : List Message) :
    List Message × List LedgerEvent :=
  sweep_limit env store 100

/-- Iterating the sweep a number of times (the periodic scheduled task). -/
def sweepIter (env : LedgerEnv) (batch : Nat) (store : List Message) : Nat → List Message
  | 0 => store
  | n + 1 => (sweep_limit env (sweepIter env batch store n) batch).1

/-- An inbound websocket frame: either unparseable JSON or a parsed JSON
object with the optional fields the WebSocketMessage schema looks for. -/
structure RawFrame where
  to_user_id : Option Nat
  payload : Option String
  message_hash : Option String

/-- One received websocket text frame. -/
inductive Frame where
  | invalidJson : Frame
  | parsed : RawFrame → Frame

/-- A structurally valid frame after pydantic validation
(app/schemas/chat.py, class WebSocketMessage). -/
structure WsMessage where
  to_user_id : Nat
  payload : String
  message_hash : String
deriving DecidableEq

/-- Pydantic validation of WebSocketMessage: to_user_id, payload and
message_hash must be present, and message_hash must have length exactly
66 (min_length=66, max_length=66). No other check is performed on the
hash. -/
def validateWsMessage (r : RawFrame) : Option WsMessage :=
  match r.to_user_id, r.payload, r.message_hash with
  | some t, some p, some h => if h.length == 66 then some ⟨t, p, h⟩ else none
  | _, _, _ => none

/-- The fixed-width hex format the specification describes for a content
hash. Modelled from the spec: 0x followed by 64 hexadecimal characters.
Stated for comparison with the validation the code performs. -/
def specHexFormat (s : String) : Bool :=
  s.length == 66 && startsWith0x s &&
    (s.data.drop 2).all (fun c => c.isDigit || ('a' ≤ c && c ≤ 'f') || ('A' ≤ c && c ≤ 'F'))

/-- Server state owned by the websocket message loop: the user directory,
the connection registry (ConnectionManager.active_connections, as the set
of online user ids), the message store, the next primary key the store
will assign and the current clock tick used for timestamps. -/
structure ServerState where
  users : List Nat
  connections : List Nat
  store : List Message
  nextId : Nat
  now : Nat
deriving DecidableEq

/-- Events emitted on websocket channels by one iteration of the message
loop: an error frame to the sender, the scheduling of the asynchronous
notarization task, a delivery-frame write attempt on the recipient's
channel, and the sent acknowledgment to the sender. -/
inductive OutEvent where
  | errorToSender (text : String)
  | scheduleNotarize (mid : Nat)
  | push (uid : Nat) (mid : Nat) (fromUser : Nat) (payload : String) (msgHash : String) (ts : Nat)
  | sentAck (mid : Nat) (toUser : Nat) (ts : Nat)
deriving DecidableEq

/-- Error text constants of the message loop. -/
def errInvalidJson : String := "Invalid JSON format"

/-- Error text for the generic except branch that catches the pydantic
ValidationError on a malformed frame. -/
def errProcessing : String := "Error processing message"

/-- Error text when the receiver id is not in the user directory. -/
def errReceiverNotFound : String := "Receiver not found"

/-- ConnectionManager.send_personal_message (app/services/websocket.py):
look the user up in the registry; absent, return False; present, attempt
the channel write (its outcome is the channelOk oracle); on a write
error, disconnect the user (evict the registry entry) and return False.
Returns the updated registry and the delivered flag. -/
def send_personal_message (channelOk : Nat → Bool) (connections : List Nat) (uid : Nat) :
    List Nat × Bool :=
  if uid ∈ connections then
    if channelOk uid then (connections, true)
    else (connections.erase uid, false)
  else (connections, false)

/-- One iteration of the websocket endpoint message loop
(app/api/endpoints/websocket.py, lines 102-184): parse, validate, check
the receiver exists, insert the Message, schedule notarization, push to
the receiver when online, then acknowledge to the sender. Malformed
frames and unknown receivers produce a single error frame and leave all
state unchanged (the loop continues). channelOk is the oracle for the
outcome of a write on each recipient channel. -/
def handleInbound (senderId : Nat) (frame : Frame) (channelOk : Nat → Bool)
    (st : ServerState) : ServerState × List OutEvent :=
  match frame with
  | Frame.invalidJson => (st, [OutEvent.errorToSender errInvalidJson])
  | Frame.parsed raw =>
    match validateWsMessage raw with
    | none => (st, [OutEvent.errorToSender errProcessing])
    | some ws =>
      if ws.to_user_id ∈ st.users then
        let newMsg : Message :=
          { id := st.nextId, sender_id := senderId, receiver_id := ws.to_user_id,
            encrypted_payload := ws.payload, message_hash := ws.message_hash,
            blockchain_tx_hash := none, timestamp := st.now }
        let afterPush :=
          if ws.to_user_id ∈ st.connections then
            ((send_personal_message channelOk st.connections ws.to_user_id).1,
             [OutEvent.push ws.to_user_id newMsg.id senderId ws.payload ws.message_hash newMsg.timestamp])
          else (st.connections, [])
        ({ st with store := st.store ++ [newMsg], connections := afterPush.1,
                   nextId := st.nextId + 1, now := st.now + 1 },
         [OutEvent.scheduleNotarize newMsg.id] ++ afterPush.2 ++
           [OutEvent.sentAck newMsg.id ws.to_user_id newMsg.timestamp])
      else (st, [OutEvent.errorToSender errReceiverNotFound])

/-- The operations that can touch the server state: one message-loop
iteration, one notarization attempt (inline task, manual endpoint or
sweep worker), one reconciliation sweep, and connect/disconnect on the
registry. -/
inductive Op where
  | inbound (senderId : Nat) (frame : Frame) (channelOk : Nat → Bool)
  | notarize (mid : Nat) (env : LedgerEnv)
  | sweep (batch : Nat) (env : LedgerEnv)
  | connect (uid : Nat)
  | disconnect (uid : Nat)

/-- Apply one operation to the server state. -/
def runOp (st : ServerState) : Op → ServerState
  | Op.inbound s f c => (handleInbound s f c st).1
  | Op.notarize mid env => { st with store := (notarize_message_async env st.store mid).1 }
  | Op.sweep b env => { st with store := (sweep_limit env st.store b).1 }
  | Op.connect u =>
      { st with connections := if u ∈ st.connections then st.connections else u :: st.connections }
  | Op.disconnect u => { st with connections := st.connections.erase u }

/-- Apply a sequence of operations. -/
def runOps (st : ServerState) (ops : List Op) : ServerState := ops.foldl runOp st

/-- Well-formedness the relational store guarantees: primary keys are
distinct and below the next key to be assigned. -/
def WF (st : ServerState) : Prop :=
  (st.store.map Message.id).Nodup ∧ ∀ m ∈ st.store, m.id < st.nextId

/-- A ledger environment in which every submission succeeds: service
fully configured, no hash reported as already registered, every raw
submission returns a non-empty transaction hash. -/
def AlwaysSucceeds (env : LedgerEnv) : Prop :=
  env.contractLoaded = true ∧ env.accountLoaded = true ∧
    (∀ h, env.verifyResult h = false) ∧
    (∀ h, ∃ tx, env.submitResult h = some tx ∧ tx.isEmpty = false)

/-- The messages the sweep selects: up to batch records whose transaction
column is NULL. -/
def pendingOf (store : List Message) (batch : Nat) : List Message :=
  (store.filter (fun m => m.blockchain_tx_hash.isNone)).take batch

/-- What one operation may do to an existing Message record: every field
except the transaction hash is immutable, and a truthy transaction hash
is frozen. -/
def msgPreserved (m m' : Message) : Prop :=
  m'.id = m.id ∧ m'.sender_id = m.sender_id ∧ m'.receiver_id = m.receiver_id ∧
  m'.encrypted_payload = m.encrypted_payload ∧ m'.message_hash = m.message_hash ∧
  m'.timestamp = m.timestamp ∧
  (optTruthy m.blockchain_tx_hash = true → m'.blockchain_tx_hash = m.blockchain_tx_hash)

/-- Invariant of the sweep loop under an always-succeeding ledger: every
record still lacking a truthy transaction hash is among the ids still to
be processed. -/
def SweepInv (ps : List Message) (s : List Message) : Prop :=
  (s.map Message.id).Nodup ∧
    ∀ m ∈ s, optTruthy m.blockchain_tx_hash = false → m.id ∈ ps.map Message.id


/-- A well-formed content hash: 0x followed by 64 hex characters. -/
def hashA : String := String.mk ('0' :: 'x' :: List.replicate 64 'a')

/-- A 66-character string that is not in hex format. -/
def zHash : String := String.mk (List.replicate 66 'z')

/-- A sample opaque payload. -/
def payloadX : String := "p"

/-- A sample non-empty transaction hash returned by the ledger. -/
def txW : String := "0xff"

/-- A channel oracle on which every write succeeds. -/
def chanAlwaysOk : Nat → Bool := fun _ => true

/-- A channel oracle on which every write raises. -/
def chanAlwaysFail : Nat → Bool := fun _ => false

/-- A parsed frame carrying a well-formed hash, addressed to user 2. -/
def rawGood : RawFrame := ⟨some 2, some payloadX, some hashA⟩

/-- The validated form of rawGood. -/
def wsGood : WsMessage := ⟨2, payloadX, hashA⟩

/-- A parsed frame whose hash has the right width but is not hex. -/
def rawZ : RawFrame := ⟨some 2, some payloadX, some zHash⟩

/-- Initial state: users 1 and 2 exist, nobody online, empty store. -/
def stW : ServerState := ⟨[1, 2], [], [], 1, 0⟩

/-- State in which user 2 is online. -/
def stOnline : ServerState := ⟨[1, 2], [2], [], 1, 0⟩

/-- An unanchored stored message from user 1 to user 2. -/
def msgU1 : Message := ⟨1, 1, 2, payloadX, hashA, none, 0⟩

/-- A second unanchored stored message. -/
def msgU2 : Message := ⟨2, 2, 1, payloadX, hashA, none, 1⟩

/-- An anchored stored message. -/
def msgA1 : Message := ⟨1, 1, 2, payloadX, hashA, some txW, 0⟩

/-- The record the message loop creates from rawZ. -/
def msgZ : Message := ⟨1, 1, 2, payloadX, zHash, none, 0⟩

/-- State holding one anchored message. -/
def stAnch : ServerState := ⟨[1, 2], [], [msgA1], 2, 1⟩

/-- The state after stW accepts rawZ. -/
def stZAfter : ServerState := ⟨[1, 2], [], [msgZ], 2, 1⟩

/-- A fully configured ledger on which every submission succeeds. -/
def envGood : LedgerEnv := ⟨true, true, fun _ => false, fun _ => some txW⟩

/-- An unreachable ledger: the service failed to initialize. -/
def envDown : LedgerEnv := ⟨false, false, fun _ => false, fun _ => none⟩

/-- A ledger that reports every hash as already registered. -/
def envDup : LedgerEnv := ⟨true, true, fun _ => true, fun _ => some txW⟩

/-- A sample operation sequence touching the anchored store. -/
def opsW : List Op := [Op.notarize 1 envGood, Op.sweep 100 envGood, Op.disconnect 2]

theorem sweep_limit_eq (env : LedgerEnv) (store : List Message) (batch : Nat) :
    sweep_limit env store batch =
      if (pendingOf store batch).isEmpty then (store, [])
      else (pendingOf store batch).foldl (sweepStep env) (store, []) := rfl

theorem normalizeHash_startsWith (h : String) : startsWith0x (normalizeHash h) = true := by
  unfold normalizeHash
  by_cases hs : startsWith0x h = true
  · simp [hs]
  · simp only [Bool.not_eq_true] at hs
    simp only [hs, Bool.false_eq_true, if_false]
    unfold startsWith0x
    have : (zeroX ++ h).data = zeroX.data ++ h.data := String.data_append ..
    rw [this]
    have h2 : zeroX.data.length = 2 := by decide
    rw [← h2, List.take_left]
    simp

theorem normalizeHash_idem (h : String) :
    normalizeHash (normalizeHash h) = normalizeHash h := by
  unfold normalizeHash
  rw [show (if startsWith0x h then h else zeroX ++ h) = normalizeHash h from rfl,
    normalizeHash_startsWith]
  simp [normalizeHash]

theorem setTx_id (mid : Nat) (txh : String) (m : Message) : (setTx mid txh m).id = m.id := by
  unfold setTx
  by_cases hm : (m.id == mid) = true <;> simp [hm]

theorem map_setTx_ids (s : List Message) (mid : Nat) (txh : String) :
    (s.map (setTx mid txh)).map Message.id = s.map Message.id := by
  rw [List.map_map]
  exact List.map_congr_left fun m _ => setTx_id mid txh m

/-- register_hash when the contract reports the hash as already
registered: no submission, None result, only a verify call. -/
theorem register_hash_already (env : LedgerEnv) (h : String)
    (hc : env.contractLoaded = true) (ha : env.accountLoaded = true)
    (hv : env.verifyResult (normalizeHash h) = true) :
    register_hash env h = (none, [LedgerEvent.verifyCall (normalizeHash h)]) := by
  unfold register_hash verify_hash
  simp [hc, ha, normalizeHash_idem, hv]

/-- register_hash under an always-succeeding ledger returns a non-empty
transaction hash. -/
theorem register_hash_succeeds (env : LedgerEnv) (h : String) (hok : AlwaysSucceeds env) :
    ∃ tx, (register_hash env h).1 = some tx ∧ tx.isEmpty = false := by
  obtain ⟨hc, ha, hv, hs⟩ := hok
  obtain ⟨tx, hsub, hne⟩ := hs (normalizeHash (normalizeHash h))
  refine ⟨tx, ?_, hne⟩
  unfold register_hash verify_hash
  simp [hc, ha, hv, hsub]

/-- Under distinct primary keys, the filter(Message.id == i).first() query
on a store containing m with that id returns m itself. -/
theorem find?_eq_of_nodup (s : List Message) (m : Message)
    (hnd : (s.map Message.id).Nodup) (hm : m ∈ s) :
    s.find? (fun x => x.id == m.id) = some m := by
  induction s with
  | nil => cases hm
  | cons a t ih =>
    rw [List.find?_cons]
    rcases List.mem_cons.mp hm with rfl | hmt
    · simp
    · have hnd' := hnd
      rw [List.map_cons, List.nodup_cons] at hnd'
      by_cases hid : (a.id == m.id) = true
      · exfalso
        have : m.id ∈ t.map Message.id := List.mem_map_of_mem Message.id hmt
        exact hnd'.1 (by rw [eq_of_beq hid]; exact this)
      · simp only [Bool.not_eq_true] at hid
        rw [hid]
        exact ih hnd'.2 hmt

/-- Case analysis of one notarization attempt: either the store is
unchanged, or the message found by id was unanchored and the store is
rewritten by a single non-empty transaction-hash write at that id. -/
theorem notarize_cases (env : LedgerEnv) (s : List Message) (mid : Nat) :
    (notarize_message_async env s mid).1 = s ∨
    ∃ txh m₀, txh.isEmpty = false ∧
      s.find? (fun m => m.id == mid) = some m₀ ∧
      optTruthy m₀.blockchain_tx_hash = false ∧
      (notarize_message_async env s mid).1 = s.map (setTx mid txh) := by
  unfold notarize_message_async
  cases hf : s.find? (fun m => m.id == mid) with
  | none => left; rfl
  | some m₀ =>
    by_cases ht : optTruthy m₀.blockchain_tx_hash = true
    · left; simp [ht]
    · simp only [Bool.not_eq_true] at ht
      cases hr : (register_hash env m₀.message_hash).1 with
      | none => left; simp [ht, hr]
      | some txh =>
        by_cases he : txh.isEmpty = true
        · left; simp [ht, hr, he]
        · right
          refine ⟨txh, m₀, by simp [he], rfl, ht, ?_⟩
          simp [ht, hr, he]

theorem notarize_ids (env : LedgerEnv) (s : List Message) (mid : Nat) :
    ((notarize_message_async env s mid).1).map Message.id = s.map Message.id := by
  rcases notarize_cases env s mid with h | ⟨txh, m₀, _, _, _, h⟩
  · rw [h]
  · rw [h]; exact map_setTx_ids s mid txh

theorem msgPreserved_refl (m : Message) : msgPreserved m m :=
  ⟨rfl, rfl, rfl, rfl, rfl, rfl, fun _ => rfl⟩

theorem msgPreserved_trans {a b c : Message}
    (h1 : msgPreserved a b) (h2 : msgPreserved b c) : msgPreserved a c := by
  obtain ⟨i1, s1, r1, p1, h1', t1, x1⟩ := h1
  obtain ⟨i2, s2, r2, p2, h2', t2, x2⟩ := h2
  refine ⟨i2.trans i1, s2.trans s1, r2.trans r1, p2.trans p1, h2'.trans h1', t2.trans t1, ?_⟩
  intro htr
  have hb := x1 htr
  have : optTruthy b.blockchain_tx_hash = true := by rw [hb]; exact htr
  rw [x2 this, hb]

/-- One notarization attempt preserves every record in the sense of
msgPreserved, when primary keys are distinct. -/
theorem notarize_pres_mem (env : LedgerEnv) (s : List Message) (mid : Nat)
    (hnd : (s.map Message.id).Nodup) (m : Message) (hm : m ∈ s) :
    ∃ m' ∈ (notarize_message_async env s mid).1, msgPreserved m m' := by
  rcases notarize_cases env s mid with h | ⟨txh, m₀, _, hf, ht, h⟩
  · exact ⟨m, by rw [h]; exact hm, msgPreserved_refl m⟩
  · refine ⟨setTx mid txh m, by rw [h]; exact List.mem_map_of_mem (setTx mid txh) hm, ?_⟩
    unfold setTx
    by_cases hid : (m.id == mid) = true
    · have hm0 : m₀ ∈ s := List.mem_of_find?_eq_some hf
      have hpred := List.find?_some hf
      have hid0 : m₀.id = mid := eq_of_beq hpred
      have : m = m₀ := List.inj_on_of_nodup_map hnd hm hm0
        (by rw [hid0]; exact eq_of_beq hid)
      subst this
      simp only [hid, if_true]
      exact ⟨rfl, rfl, rfl, rfl, rfl, rfl, fun htr => absurd htr (by rw [ht]; simp)⟩
    · simp only [hid, Bool.false_eq_true, if_false]
      exact msgPreserved_refl m

theorem sweepStep_eq (env : LedgerEnv) (s : List Message) (e : List LedgerEvent) (p : Message) :
    sweepStep env (s, e) p =
      ((notarize_message_async env s p.id).1,
        e ++ (notarize_message_async env s p.id).2.2) := rfl

theorem sweep_fold_ids (env : LedgerEnv) (ps : List Message) :
    ∀ s e, ((ps.foldl (sweepStep env) (s, e)).1).map Message.id = s.map Message.id := by
  induction ps with
  | nil => intro s e; rfl
  | cons p tl ih =>
    intro s e
    rw [List.foldl_cons, sweepStep_eq, ih, notarize_ids]

theorem sweep_fold_pres (env : LedgerEnv) (ps : List Message) :
    ∀ s e, (s.map Message.id).Nodup → ∀ m ∈ s,
      ∃ m' ∈ (ps.foldl (sweepStep env) (s, e)).1, msgPreserved m m' := by
  induction ps with
  | nil => intro s e _ m hm; exact ⟨m, hm, msgPreserved_refl m⟩
  | cons p tl ih =>
    intro s e hnd m hm
    rw [List.foldl_cons, sweepStep_eq]
    obtain ⟨m1, hm1, hp1⟩ := notarize_pres_mem env s p.id hnd m hm
    have hnd' : (((notarize_message_async env s p.id).1).map Message.id).Nodup := by
      rw [notarize_ids]; exact hnd
    obtain ⟨m2, hm2, hp2⟩ := ih _ _ hnd' m1 hm1
    exact ⟨m2, hm2, msgPreserved_trans hp1 hp2⟩

theorem sweep_limit_ids (env : LedgerEnv) (store : List Message) (batch : Nat) :
    ((sweep_limit env store batch).1).map Message.id = store.map Message.id := by
  rw [sweep_limit_eq]
  by_cases hp : (pendingOf store batch).isEmpty = true
  · simp [hp]
  · simp only [hp, Bool.false_eq_true, if_false]
    exact sweep_fold_ids env (pendingOf store batch) store []

theorem sweep_limit_pres (env : LedgerEnv) (store : List Message) (batch : Nat)
    (hnd : (store.map Message.id).Nodup) (m : Message) (hm : m ∈ store) :
    ∃ m' ∈ (sweep_limit env store batch).1, msgPreserved m m' := by
  rw [sweep_limit_eq]
  by_cases hp : (pendingOf store batch).isEmpty = true
  · simp only [hp, if_true]
    exact ⟨m, hm, msgPreserved_refl m⟩
  · simp only [hp, Bool.false_eq_true, if_false]
    exact sweep_fold_pres env (pendingOf store batch) store [] hnd m hm

/-- Case analysis of one message-loop iteration: either the state is
unchanged, or exactly one new Message carrying the fresh id was appended
and the next id advanced. -/
theorem handleInbound_cases (senderId : Nat) (frame : Frame) (chOk : Nat → Bool)
    (st : ServerState) :
    ((handleInbound senderId frame chOk st).1.store = st.store ∧
      (handleInbound senderId frame chOk st).1.nextId = st.nextId) ∨
    ∃ newMsg, newMsg.id = st.nextId ∧
      (handleInbound senderId frame chOk st).1.store = st.store ++ [newMsg] ∧
      (handleInbound senderId frame chOk st).1.nextId = st.nextId + 1 := by
  cases frame with
  | invalidJson => left; exact ⟨rfl, rfl⟩
  | parsed raw =>
    cases hv : validateWsMessage raw with
    | none =>
      left
      constructor <;> simp [handleInbound, hv]
    | some ws =>
      by_cases hu : ws.to_user_id ∈ st.users
      · right
        refine ⟨{ id := st.nextId, sender_id := senderId, receiver_id := ws.to_user_id,
                  encrypted_payload := ws.payload, message_hash := ws.message_hash,
                  blockchain_tx_hash := none, timestamp := st.now }, rfl, ?_, ?_⟩ <;>
          simp [handleInbound, hv, hu]
      · left
        constructor <;> simp [handleInbound, hv, hu]

theorem runOp_WF (st : ServerState) (op : Op) (h : WF st) : WF (runOp st op) := by
  obtain ⟨hnd, hlt⟩ := h
  cases op with
  | inbound s f c =>
    rcases handleInbound_cases s f c st with ⟨hs, hn⟩ | ⟨newMsg, hid, hs, hn⟩
    · exact ⟨by rw [runOp, hs]; exact hnd, by rw [runOp, hs, hn]; exact hlt⟩
    · constructor
      · rw [runOp, hs, List.map_append, List.map_singleton, hid]
        rw [List.nodup_append]
        refine ⟨hnd, List.nodup_singleton _, ?_⟩
        intro x hx hx1
        rw [List.mem_singleton] at hx1
        obtain ⟨m, hm, hmx⟩ := List.mem_map.mp hx
        exact absurd (hmx.trans hx1) (Nat.ne_of_lt (hlt m hm))
      · intro m hm
        rw [runOp, hs] at hm
        rw [runOp, hn]
        rcases List.mem_append.mp hm with hmo | hmn
        · exact Nat.lt_succ_of_lt (hlt m hmo)
        · rw [List.mem_singleton] at hmn
          rw [hmn, hid]
          exact Nat.lt_succ_self _
  | notarize mid env =>
    constructor
    · rw [runOp]; rw [show ({ st with store := (notarize_message_async env st.store mid).1 } : ServerState).store = (notarize_message_async env st.store mid).1 from rfl, notarize_ids]
      exact hnd
    · intro m hm
      have : m.id ∈ (st.store.map Message.id) := by
        rw [← notarize_ids env st.store mid]
        exact List.mem_map_of_mem Message.id hm
      obtain ⟨m0, hm0, hm0id⟩ := List.mem_map.mp this
      rw [runOp, ← hm0id]
      exact hlt m0 hm0
  | sweep b env =>
    constructor
    · rw [runOp]; rw [show ({ st with store := (sweep_limit env st.store b).1 } : ServerState).store = (sweep_limit env st.store b).1 from rfl, sweep_limit_ids]
      exact hnd
    · intro m hm
      have : m.id ∈ (st.store.map Message.id) := by
        rw [← sweep_limit_ids env st.store b]
        exact List.mem_map_of_mem Message.id hm
      obtain ⟨m0, hm0, hm0id⟩ := List.mem_map.mp this
      rw [runOp, ← hm0id]
      exact hlt m0 hm0
  | connect u => exact ⟨hnd, hlt⟩
  | disconnect u => exact ⟨hnd, hlt⟩

theorem runOp_pres (st : ServerState) (op : Op) (h : WF st) (m : Message)
    (hm : m ∈ st.store) : ∃ m' ∈ (runOp st op).store, msgPreserved m m' := by
  cases op with
  | inbound s f c =>
    rcases handleInbound_cases s f c st with ⟨hs, _⟩ | ⟨newMsg, _, hs, _⟩
    · exact ⟨m, by rw [runOp, hs]; exact hm, msgPreserved_refl m⟩
    · exact ⟨m, by rw [runOp, hs]; exact List.mem_append_left _ hm, msgPreserved_refl m⟩
  | notarize mid env => exact notarize_pres_mem env st.store mid h.1 m hm
  | sweep b env => exact sweep_limit_pres env st.store b h.1 m hm
  | connect u => exact ⟨m, hm, msgPreserved_refl m⟩
  | disconnect u => exact ⟨m, hm, msgPreserved_refl m⟩

theorem runOps_WF (ops : List Op) : ∀ st, WF st → WF (runOps st ops) := by
  induction ops with
  | nil => intro st h; exact h
  | cons op tl ih =>
    intro st h
    rw [runOps, List.foldl_cons]
    exact ih (runOp st op) (runOp_WF st op h)

theorem runOps_pres (ops : List Op) : ∀ st, WF st → ∀ m ∈ st.store,
    ∃ m' ∈ (runOps st ops).store, msgPreserved m m' := by
  induction ops with
  | nil => intro st _ m hm; exact ⟨m, hm, msgPreserved_refl m⟩
  | cons op tl ih =>
    intro st h m hm
    rw [runOps, List.foldl_cons]
    obtain ⟨m1, hm1, hp1⟩ := runOp_pres st op h m hm
    obtain ⟨m2, hm2, hp2⟩ := ih (runOp st op) (runOp_WF st op h) m1 hm1
    exact ⟨m2, hm2, msgPreserved_trans hp1 hp2⟩

/-- A notarization attempt on a message that already carries a truthy
transaction hash stops before any ledger interaction. -/
theorem notarize_noop_of_anchored (env : LedgerEnv) (store : List Message) (mid : Nat)
    (m₀ : Message) (hf : store.find? (fun m => m.id == mid) = some m₀)
    (ht : optTruthy m₀.blockchain_tx_hash = true) :
    notarize_message_async env store mid = (store, none, []) := by
  unfold notarize_message_async
  rw [hf]
  simp [ht]

theorem sweepInv_step (env : LedgerEnv) (hok : AlwaysSucceeds env)
    (p : Message) (tl : List Message) (s : List Message)
    (hinv : SweepInv (p :: tl) s) :
    SweepInv tl (notarize_message_async env s p.id).1 := by
  obtain ⟨hnd, hall⟩ := hinv
  refine ⟨by rw [notarize_ids]; exact hnd, ?_⟩
  intro m' hm' hfalse
  cases hff : s.find? (fun m => m.id == p.id) with
  | none =>
    have hs' : (notarize_message_async env s p.id).1 = s := by
      unfold notarize_message_async; rw [hff]
    rw [hs'] at hm'
    have hmem := hall m' hm' hfalse
    rw [List.map_cons, List.mem_cons] at hmem
    rcases hmem with heq | htl
    · exact absurd (beq_iff_eq.mpr heq) (by
        have := List.find?_eq_none.mp hff m' hm'
        simpa using this)
    · exact htl
  | some m₀ =>
    by_cases ht0 : optTruthy m₀.blockchain_tx_hash = true
    · have hs' : (notarize_message_async env s p.id).1 = s := by
        rw [notarize_noop_of_anchored env s p.id m₀ hff ht0]
      rw [hs'] at hm'
      have hmem := hall m' hm' hfalse
      rw [List.map_cons, List.mem_cons] at hmem
      rcases hmem with heq | htl
      · exfalso
        have hm0mem : m₀ ∈ s := List.mem_of_find?_eq_some hff
        have hpred := List.find?_some hff
        have hm0id : m₀.id = p.id := eq_of_beq hpred
        have : m' = m₀ :=
          List.inj_on_of_nodup_map hnd hm' hm0mem (heq.trans hm0id.symm)
        rw [this, ht0] at hfalse
        simp at hfalse
      · exact htl
    · rw [Bool.not_eq_true] at ht0
      obtain ⟨tx, hr1, hne⟩ := register_hash_succeeds env m₀.message_hash hok
      have hs' : (notarize_message_async env s p.id).1 = s.map (setTx p.id tx) := by
        unfold notarize_message_async
        rw [hff]
        simp [ht0, hr1, hne]
      rw [hs'] at hm'
      obtain ⟨m, hmem, hmap⟩ := List.mem_map.mp hm'
      by_cases hid : (m.id == p.id) = true
      · exfalso
        have : m' = { m with blockchain_tx_hash := some tx } := by
          rw [← hmap]; unfold setTx; rw [if_pos hid]
        rw [this] at hfalse
        simp [optTruthy, hne] at hfalse
      · have hmm : m' = m := by
          rw [← hmap]; unfold setTx; rw [if_neg (by simp [hid])]
        subst hmm
        have hmem2 := hall m' hmem hfalse
        rw [List.map_cons, List.mem_cons] at hmem2
        rcases hmem2 with heq | htl
        · exact absurd (beq_iff_eq.mpr heq) (by simp [hid])
        · exact htl

theorem sweep_fold_anchors (env : LedgerEnv) (hok : AlwaysSucceeds env) (ps : List Message) :
    ∀ s e, SweepInv ps s →
      ∀ m' ∈ (ps.foldl (sweepStep env) (s, e)).1, optTruthy m'.blockchain_tx_hash = true := by
  induction ps with
  | nil =>
    intro s e hinv m' hm'
    by_contra hh
    rw [Bool.not_eq_true] at hh
    have := hinv.2 m' hm' hh
    simp at this
  | cons p tl ih =>
    intro s e hinv m' hm'
    rw [List.foldl_cons, sweepStep_eq] at hm'
    exact ih _ _ (sweepInv_step env hok p tl s hinv) m' hm'

/-- A record whose transaction column is NULL and whose hash the adapter
cannot register survives any notarization attempt verbatim. -/
theorem notarize_preserves_unanchorable (env : LedgerEnv) (s : List Message) (mid : Nat)
    (hnd : (s.map Message.id).Nodup) (m : Message) (hm : m ∈ s)
    (hnone : m.blockchain_tx_hash = none)
    (hreg : (register_hash env m.message_hash).1 = none) :
    m ∈ (notarize_message_async env s mid).1 := by
  by_cases hid : m.id = mid
  · subst hid
    have hf : s.find? (fun x => x.id == m.id) = some m := find?_eq_of_nodup s m hnd hm
    unfold notarize_message_async
    rw [hf]
    simp only [hnone, optTruthy, Bool.false_eq_true, if_false, hreg]
    exact hm
  · rcases notarize_cases env s mid with h | ⟨txh, m₀, _, _, _, h⟩
    · rw [h]; exact hm
    · rw [h]
      have hfix : setTx mid txh m = m := by
        unfold setTx; rw [if_neg (by simp [hid])]
      rw [← hfix]
      exact List.mem_map_of_mem _ hm

theorem sweep_fold_unanchorable (env : LedgerEnv) (ps : List Message) :
    ∀ s e, (s.map Message.id).Nodup → ∀ m ∈ s,
      m.blockchain_tx_hash = none →
      (register_hash env m.message_hash).1 = none →
      m ∈ (ps.foldl (sweepStep env) (s, e)).1 := by
  induction ps with
  | nil => intro s e _ m hm _ _; exact hm
  | cons p tl ih =>
    intro s e hnd m hm hnone hreg
    rw [List.foldl_cons, sweepStep_eq]
    exact ih _ _ (by rw [notarize_ids]; exact hnd) m
      (notarize_preserves_unanchorable env s p.id hnd m hm hnone hreg) hnone hreg

theorem sweep_limit_unanchorable (env : LedgerEnv) (store : List Message) (batch : Nat)
    (hnd : (store.map Message.id).Nodup) (m : Message) (hm : m ∈ store)
    (hnone : m.blockchain_tx_hash = none)
    (hreg : (register_hash env m.message_hash).1 = none) :
    m ∈ (sweep_limit env store batch).1 := by
  rw [sweep_limit_eq]
  by_cases hp : (pendingOf store batch).isEmpty = true
  · rw [if_pos hp]; exact hm
  · rw [if_neg hp]
    exact sweep_fold_unanchorable env (pendingOf store batch) store [] hnd m hm hnone hreg

theorem sweep_limit_length (env : LedgerEnv) (store : List Message) (batch : Nat) :
    ((sweep_limit env store batch).1).length = store.length := by
  have := congrArg List.length (sweep_limit_ids env store batch)
  simpa using this

/-- Claim C1: for every valid inbound frame accepted by the websocket
message loop, exactly one Message record is appended to the store, and
its stored hash and payload equal the supplied hash and payload
byte-for-byte with no transformation; processing the same well-formed
frame twice produces two records with distinct ids (no deduplication by
content). -/
theorem claim1_persist_exact (senderId : Nat) (raw : RawFrame) (ws : WsMessage)
    (chOk : Nat → Bool) (st : ServerState)
    (hval : validateWsMessage raw = some ws)
    (hrecv : ws.to_user_id ∈ st.users) :
    ∃ m1 m2,
      (handleInbound senderId (Frame.parsed raw) chOk st).1.store = st.store ++ [m1] ∧
      (handleInbound senderId (Frame.parsed raw) chOk
          (handleInbound senderId (Frame.parsed raw) chOk st).1).1.store =
        st.store ++ [m1, m2] ∧
      m1.encrypted_payload = ws.payload ∧ m1.message_hash = ws.message_hash ∧
      m2.encrypted_payload = ws.payload ∧ m2.message_hash = ws.message_hash ∧
      m1.id ≠ m2.id := by
  refine ⟨{ id := st.nextId, sender_id := senderId, receiver_id := ws.to_user_id,
            encrypted_payload := ws.payload, message_hash := ws.message_hash,
            blockchain_tx_hash := none, timestamp := st.now },
          { id := st.nextId + 1, sender_id := senderId, receiver_id := ws.to_user_id,
            encrypted_payload := ws.payload, message_hash := ws.message_hash,
            blockchain_tx_hash := none, timestamp := st.now + 1 },
          ?_, ?_, rfl, rfl, rfl, rfl, ?_⟩
  · simp [handleInbound, hval, hrecv]
  · simp [handleInbound, hval, hrecv]
  · simp

/-- Witness for claim C1 at a concrete state and frame. -/
theorem claim1_witness :
    validateWsMessage rawGood = some wsGood ∧ wsGood.to_user_id ∈ stW.users ∧
    ∃ m1 m2,
      (handleInbound 1 (Frame.parsed rawGood) chanAlwaysOk stW).1.store = stW.store ++ [m1] ∧
      (handleInbound 1 (Frame.parsed rawGood) chanAlwaysOk
          (handleInbound 1 (Frame.parsed rawGood) chanAlwaysOk stW).1).1.store =
        stW.store ++ [m1, m2] ∧
      m1.encrypted_payload = wsGood.payload ∧ m1.message_hash = wsGood.message_hash ∧
      m2.encrypted_payload = wsGood.payload ∧ m2.message_hash = wsGood.message_hash ∧
      m1.id ≠ m2.id :=
  ⟨by decide, by decide,
    claim1_persist_exact 1 rawGood wsGood chanAlwaysOk stW (by decide) (by decide)⟩

/-- Claim C3: when the ledger submission fails for an unanchored message
(the adapter returns None for any reason: unreachable ledger, rejected
submission, transport or contract error), the store is left unchanged
(the message stays Unanchored, no failure state is recorded) and the
worker returns None; totality of the model reflects that no exception
escapes the notarization boundary. -/
theorem claim3_failure_leaves_unanchored (env : LedgerEnv) (store : List Message)
    (mid : Nat) (m : Message)
    (hf : store.find? (fun x => x.id == mid) = some m)
    (hun : optTruthy m.blockchain_tx_hash = false)
    (hfail : (register_hash env m.message_hash).1 = none) :
    notarize_message_async env store mid =
      (store, none, (register_hash env m.message_hash).2) := by
  unfold notarize_message_async
  rw [hf]
  simp [hun, hfail]

/-- Witness for claim C3: an unreachable ledger leaves the single stored
message unanchored. -/
theorem claim3_witness :
    [msgU1].find? (fun x => x.id == 1) = some msgU1 ∧
    optTruthy msgU1.blockchain_tx_hash = false ∧
    (register_hash envDown msgU1.message_hash).1 = none ∧
    notarize_message_async envDown [msgU1] 1 =
      ([msgU1], none, (register_hash envDown msgU1.message_hash).2) :=
  ⟨by decide, by decide, by decide,
    claim3_failure_leaves_unanchored envDown [msgU1] 1 msgU1 (by decide) (by decide) (by decide)⟩

/-- Claim C8: register_hash checks the registration state of the hash
first; when the ledger reports it already registered, the result is None
and the fee-costing submission path is never reached (at most the single
verify call appears in the effect trace). -/
theorem claim8_check_before_submit (env : LedgerEnv) (h : String)
    (hv : env.verifyResult (normalizeHash h) = true) :
    (register_hash env h).1 = none ∧
    (∀ s, LedgerEvent.submitTx s ∉ (register_hash env h).2) ∧
    ((register_hash env h).2 = [] ∨
      (register_hash env h).2 = [LedgerEvent.verifyCall (normalizeHash h)]) := by
  cases hc : env.contractLoaded with
  | false =>
    have hr : register_hash env h = (none, []) := by unfold register_hash; simp [hc]
    rw [hr]
    exact ⟨rfl, by simp, Or.inl rfl⟩
  | true =>
    cases ha : env.accountLoaded with
    | false =>
      have hr : register_hash env h = (none, []) := by unfold register_hash; simp [hc, ha]
      rw [hr]
      exact ⟨rfl, by simp, Or.inl rfl⟩
    | true =>
      have hr := register_hash_already env h hc ha hv
      rw [hr]
      refine ⟨rfl, ?_, Or.inr rfl⟩
      intro s
      simp

/-- Witness for claim C8 on a ledger that already holds the hash. -/
theorem claim8_witness :
    envDup.verifyResult (normalizeHash hashA) = true ∧
    ((register_hash envDup hashA).1 = none ∧
      (∀ s, LedgerEvent.submitTx s ∉ (register_hash envDup hashA).2) ∧
      ((register_hash envDup hashA).2 = [] ∨
        (register_hash envDup hashA).2 = [LedgerEvent.verifyCall (normalizeHash hashA)])) :=
  ⟨rfl, claim8_check_before_submit envDup hashA rfl⟩

/-- Claim C4: for every inbound frame whose Message insert succeeds, a
delivery push attempt occurs exactly when the recipient is online at that
instant, and in both cases a sent acknowledgment carrying the new message
id and its timestamp is returned to the sender. -/
theorem claim4_push_iff_online (senderId : Nat) (raw : RawFrame) (ws : WsMessage)
    (chOk : Nat → Bool) (st : ServerState)
    (hval : validateWsMessage raw = some ws)
    (hrecv : ws.to_user_id ∈ st.users) :
    (ws.to_user_id ∈ st.connections →
      OutEvent.push ws.to_user_id st.nextId senderId ws.payload ws.message_hash st.now
        ∈ (handleInbound senderId (Frame.parsed raw) chOk st).2) ∧
    (ws.to_user_id ∉ st.connections →
      ∀ u mid f p h t,
        OutEvent.push u mid f p h t ∉ (handleInbound senderId (Frame.parsed raw) chOk st).2) ∧
    OutEvent.sentAck st.nextId ws.to_user_id st.now
      ∈ (handleInbound senderId (Frame.parsed raw) chOk st).2 := by
  refine ⟨?_, ?_, ?_⟩
  · intro honline
    simp [handleInbound, hval, hrecv, honline]
  · intro hoff u mid f p h t
    simp [handleInbound, hval, hrecv, hoff]
  · by_cases honline : ws.to_user_id ∈ st.connections <;>
      simp [handleInbound, hval, hrecv, honline]

/-- Witness for claim C4 with the recipient online. -/
theorem claim4_witness :
    validateWsMessage rawGood = some wsGood ∧ wsGood.to_user_id ∈ stOnline.users ∧
    ((wsGood.to_user_id ∈ stOnline.connections →
      OutEvent.push wsGood.to_user_id stOnline.nextId 1 wsGood.payload wsGood.message_hash
          stOnline.now
        ∈ (handleInbound 1 (Frame.parsed rawGood) chanAlwaysOk stOnline).2) ∧
    (wsGood.to_user_id ∉ stOnline.connections →
      ∀ u mid f p h t,
        OutEvent.push u mid f p h t
          ∉ (handleInbound 1 (Frame.parsed rawGood) chanAlwaysOk stOnline).2) ∧
    OutEvent.sentAck stOnline.nextId wsGood.to_user_id stOnline.now
      ∈ (handleInbound 1 (Frame.parsed rawGood) chanAlwaysOk stOnline).2) :=
  ⟨by decide, by decide,
    claim4_push_iff_online 1 rawGood wsGood chanAlwaysOk stOnline (by decide) (by decide)⟩

/-- Claim C5 (amended): for every inbound frame that is malformed in the
sense the code validates (unparseable, target identity missing, payload
missing, or hash whose length differs from the fixed width of 66) or that
names an unknown recipient, a single error frame is sent to the
originating connection, no Message record is created, no other state is
mutated, and the loop continues (the model closes no connection). The
original claim also counted a 66-character non-hex hash as malformed;
claim5_counterexample shows the code accepts and persists such a frame,
because pydantic enforces only min_length=66 and max_length=66. -/
theorem claim5_reject_no_record (senderId : Nat) (frame : Frame) (chOk : Nat → Bool)
    (st : ServerState)
    (hbad : frame = Frame.invalidJson ∨
      (∃ raw, frame = Frame.parsed raw ∧ validateWsMessage raw = none) ∨
      (∃ raw ws, frame = Frame.parsed raw ∧ validateWsMessage raw = some ws ∧
        ws.to_user_id ∉ st.users)) :
    (handleInbound senderId frame chOk st).1 = st ∧
    ∃ t, (handleInbound senderId frame chOk st).2 = [OutEvent.errorToSender t] := by
  rcases hbad with rfl | ⟨raw, rfl, hv⟩ | ⟨raw, ws, rfl, hv, hu⟩
  · exact ⟨rfl, errInvalidJson, rfl⟩
  · constructor
    · simp [handleInbound, hv]
    · exact ⟨errProcessing, by simp [handleInbound, hv]⟩
  · constructor
    · simp [handleInbound, hv, hu]
    · exact ⟨errReceiverNotFound, by simp [handleInbound, hv, hu]⟩

/-- Witness for claim C5 (amended): a frame whose hash is one character
short is rejected with a single error frame and no record. -/
theorem claim5_witness :
    ((Frame.parsed ⟨some 2, some payloadX, none⟩ : Frame) = Frame.invalidJson ∨
      (∃ raw, (Frame.parsed ⟨some 2, some payloadX, none⟩ : Frame) = Frame.parsed raw ∧
        validateWsMessage raw = none) ∨
      (∃ raw ws, (Frame.parsed ⟨some 2, some payloadX, none⟩ : Frame) = Frame.parsed raw ∧
        validateWsMessage raw = some ws ∧ ws.to_user_id ∉ stW.users)) ∧
    ((handleInbound 1 (Frame.parsed ⟨some 2, some payloadX, none⟩) chanAlwaysOk stW).1 = stW ∧
      ∃ t, (handleInbound 1 (Frame.parsed ⟨some 2, some payloadX, none⟩) chanAlwaysOk stW).2 =
        [OutEvent.errorToSender t]) :=
  ⟨Or.inr (Or.inl ⟨⟨some 2, some payloadX, none⟩, rfl, rfl⟩),
    claim5_reject_no_record 1 (Frame.parsed ⟨some 2, some payloadX, none⟩) chanAlwaysOk stW
      (Or.inr (Or.inl ⟨⟨some 2, some payloadX, none⟩, rfl, rfl⟩))⟩

/-- Counterexample to claim C5 as stated: zHash is 66 characters but not
in hex format, so the claim counts the frame as malformed and demands an
error with no record; the code accepts it, persists a Message carrying
zHash verbatim, and replies with a sent acknowledgment and no error. -/
theorem claim5_counterexample :
    specHexFormat zHash = false ∧
    handleInbound 1 (Frame.parsed rawZ) chanAlwaysOk stW =
      (stZAfter, [OutEvent.scheduleNotarize 1, OutEvent.sentAck 1 2 0]) ∧
    stZAfter.store = [msgZ] ∧ msgZ.message_hash = zHash := by
  refine ⟨by decide, by decide, rfl, rfl⟩

/-- Claim C9: a delivery push to an online identity whose channel write
raises evicts that identity from the registry and returns false, and the
sender of the original message still receives the sent acknowledgment. -/
theorem claim9_push_failure_evicts (senderId : Nat) (raw : RawFrame) (ws : WsMessage)
    (chOk : Nat → Bool) (st : ServerState)
    (hval : validateWsMessage raw = some ws)
    (hrecv : ws.to_user_id ∈ st.users)
    (honline : ws.to_user_id ∈ st.connections)
    (hfail : chOk ws.to_user_id = false) :
    send_personal_message chOk st.connections ws.to_user_id =
      (st.connections.erase ws.to_user_id, false) ∧
    (handleInbound senderId (Frame.parsed raw) chOk st).1.connections =
      st.connections.erase ws.to_user_id ∧
    OutEvent.sentAck st.nextId ws.to_user_id st.now
      ∈ (handleInbound senderId (Frame.parsed raw) chOk st).2 := by
  have hspm : send_personal_message chOk st.connections ws.to_user_id =
      (st.connections.erase ws.to_user_id, false) := by
    unfold send_personal_message
    rw [if_pos honline, if_neg (by simp [hfail])]
  refine ⟨hspm, ?_, ?_⟩
  · simp [handleInbound, hval, hrecv, honline, hspm]
  · simp [handleInbound, hval, hrecv, honline]

/-- Witness for claim C9 with user 2 online on a failing channel. -/
theorem claim9_witness :
    validateWsMessage rawGood = some wsGood ∧ wsGood.to_user_id ∈ stOnline.users ∧
    wsGood.to_user_id ∈ stOnline.connections ∧ chanAlwaysFail wsGood.to_user_id = false ∧
    (send_personal_message chanAlwaysFail stOnline.connections wsGood.to_user_id =
      (stOnline.connections.erase wsGood.to_user_id, false) ∧
    (handleInbound 1 (Frame.parsed rawGood) chanAlwaysFail stOnline).1.connections =
      stOnline.connections.erase wsGood.to_user_id ∧
    OutEvent.sentAck stOnline.nextId wsGood.to_user_id stOnline.now
      ∈ (handleInbound 1 (Frame.parsed rawGood) chanAlwaysFail stOnline).2) :=
  ⟨by decide, by decide, by decide, by decide,
    claim9_push_failure_evicts 1 rawGood wsGood chanAlwaysFail stOnline
      (by decide) (by decide) (by decide) (by decide)⟩

/-- Claim C2: for every message, at most one non-empty transaction
reference is ever attached: a truthy reference, once present, survives
every further operation unchanged, every other field of a stored record
is immutable under every operation (the write-back in notarize is the
only mutation after creation), and a notarization attempt on a message
that already carries a reference stops without any ledger interaction. -/
theorem claim2_tx_write_once (st : ServerState) (ops : List Op) (hwf : WF st) :
    (∀ m ∈ st.store, ∃ m' ∈ (runOps st ops).store, msgPreserved m m') ∧
    (∀ env mid m₀, st.store.find? (fun m => m.id == mid) = some m₀ →
      optTruthy m₀.blockchain_tx_hash = true →
      notarize_message_async env st.store mid = (st.store, none, [])) :=
  ⟨runOps_pres ops st hwf,
    fun env mid m₀ hf ht => notarize_noop_of_anchored env st.store mid m₀ hf ht⟩

/-- Witness for claim C2 on a store holding one anchored message. -/
theorem claim2_witness :
    WF stAnch ∧
    ((∀ m ∈ stAnch.store, ∃ m' ∈ (runOps stAnch opsW).store, msgPreserved m m') ∧
    (∀ env mid m₀, stAnch.store.find? (fun m => m.id == mid) = some m₀ →
      optTruthy m₀.blockchain_tx_hash = true →
      notarize_message_async env stAnch.store mid = (stAnch.store, none, []))) :=
  ⟨⟨by decide, by decide⟩, claim2_tx_write_once stAnch opsW ⟨by decide, by decide⟩⟩

/-- Claim C6: one sweep over a store whose unanchored messages fit in the
batch, against a ledger client that always succeeds, leaves every message
Anchored with a non-empty transaction reference. -/
theorem claim6_sweep_anchors (env : LedgerEnv) (store : List Message) (batch : Nat)
    (hnd : (store.map Message.id).Nodup)
    (hok : AlwaysSucceeds env)
    (hcount : (store.filter (fun m => m.blockchain_tx_hash.isNone)).length ≤ batch)
    (hanch : ∀ m ∈ store, m.blockchain_tx_hash ≠ none →
      optTruthy m.blockchain_tx_hash = true) :
    ∀ m' ∈ (sweep_limit env store batch).1, optTruthy m'.blockchain_tx_hash = true := by
  have htake : (store.filter (fun m => m.blockchain_tx_hash.isNone)).take batch
      = store.filter (fun m => m.blockchain_tx_hash.isNone) :=
    List.take_of_length_le hcount
  have hinv : SweepInv (pendingOf store batch) store := by
    refine ⟨hnd, ?_⟩
    intro m hm hfalse
    have hnone : m.blockchain_tx_hash = none := by
      by_contra hne
      have := hanch m hm hne
      rw [hfalse] at this
      simp at this
    have hmf : m ∈ store.filter (fun x => x.blockchain_tx_hash.isNone) :=
      List.mem_filter.mpr ⟨hm, by rw [hnone]; rfl⟩
    rw [pendingOf, htake]
    exact List.mem_map_of_mem Message.id hmf
  intro m' hm'
  rw [sweep_limit_eq] at hm'
  by_cases hp : (pendingOf store batch).isEmpty = true
  · rw [if_pos hp] at hm'
    by_contra hh
    rw [Bool.not_eq_true] at hh
    have hmem := hinv.2 m' hm' hh
    rw [List.isEmpty_iff] at hp
    rw [hp] at hmem
    simp at hmem
  · rw [if_neg hp] at hm'
    exact sweep_fold_anchors env hok (pendingOf store batch) store [] hinv m' hm'

/-- Witness for claim C6: two unanchored messages, batch 2, succeeding
ledger. -/
theorem claim6_witness :
    (([msgU1, msgU2].map Message.id).Nodup ∧ AlwaysSucceeds envGood ∧
      ([msgU1, msgU2].filter (fun m => m.blockchain_tx_hash.isNone)).length ≤ 2 ∧
      (∀ m ∈ [msgU1, msgU2], m.blockchain_tx_hash ≠ none →
        optTruthy m.blockchain_tx_hash = true)) ∧
    ∀ m' ∈ (sweep_limit envGood [msgU1, msgU2] 2).1,
      optTruthy m'.blockchain_tx_hash = true :=
  ⟨⟨by decide, ⟨rfl, rfl, fun _ => rfl, fun _ => ⟨txW, rfl, rfl⟩⟩, by decide, by decide⟩,
    claim6_sweep_anchors envGood [msgU1, msgU2] 2 (by decide)
      ⟨rfl, rfl, fun _ => rfl, fun _ => ⟨txW, rfl, rfl⟩⟩ (by decide) (by decide)⟩

/-- Claim C7: on a store in which every message already carries a
transaction reference, the sweep selects nothing, performs zero ledger
calls and leaves the store unchanged, on every repetition; this holds for
sweep_limit at any batch size and for retry_failed_notarizations. -/
theorem claim7_sweep_idempotent_noop (env : LedgerEnv) (store : List Message) (batch : Nat)
    (hanch : ∀ m ∈ store, m.blockchain_tx_hash ≠ none) :
    (∀ n, sweepIter env batch store n = store) ∧
    (∀ n, sweep_limit env (sweepIter env batch store n) batch = (store, [])) ∧
    retry_failed_notarizations env store = (store, []) := by
  have hfilter : store.filter (fun m => m.blockchain_tx_hash.isNone) = [] := by
    rw [List.filter_eq_nil_iff]
    intro m hm
    have := hanch m hm
    cases hcase : m.blockchain_tx_hash with
    | none => exact absurd hcase this
    | some s => simp [hcase]
  have hsw : ∀ b, sweep_limit env store b = (store, []) := by
    intro b
    rw [sweep_limit_eq]
    have hpend : pendingOf store b = [] := by
      rw [pendingOf, hfilter]
      exact List.take_nil
    rw [hpend]
    rfl
  have hiter : ∀ n, sweepIter env batch store n = store := by
    intro n
    induction n with
    | zero => rfl
    | succ k ih => rw [sweepIter, ih, hsw batch]
  refine ⟨hiter, ?_, hsw 100⟩
  intro n
  rw [hiter n]
  exact hsw batch

/-- Witness for claim C7 on a store holding one anchored message. -/
theorem claim7_witness :
    (∀ m ∈ [msgA1], m.blockchain_tx_hash ≠ none) ∧
    ((∀ n, sweepIter envGood 5 [msgA1] n = [msgA1]) ∧
      (∀ n, sweep_limit envGood (sweepIter envGood 5 [msgA1] n) 5 = ([msgA1], [])) ∧
      retry_failed_notarizations envGood [msgA1] = ([msgA1], [])) :=
  ⟨by decide, claim7_sweep_idempotent_noop envGood [msgA1] 5 (by decide)⟩

theorem sweepIter_ids (env : LedgerEnv) (batch : Nat) (store : List Message) :
    ∀ n, (sweepIter env batch store n).map Message.id = store.map Message.id := by
  intro n
  induction n with
  | zero => rfl
  | succ k ih => rw [sweepIter, sweep_limit_ids, ih]

/-- Claim C10: when the ledger already holds a message's hash, the
adapter returns None after its registration check, so notarize writes
nothing; the message stays Unanchored verbatim across every sweep and is
selected again by each subsequent sweep, never reaching Anchored through
this path. -/
theorem claim10_already_registered_starves (env : LedgerEnv) (store : List Message)
    (batch : Nat) (m : Message)
    (hnd : (store.map Message.id).Nodup) (hm : m ∈ store)
    (hnone : m.blockchain_tx_hash = none)
    (hc : env.contractLoaded = true) (ha : env.accountLoaded = true)
    (hv : env.verifyResult (normalizeHash m.message_hash) = true)
    (hlen : store.length ≤ batch) :
    register_hash env m.message_hash =
      (none, [LedgerEvent.verifyCall (normalizeHash m.message_hash)]) ∧
    (notarize_message_async env store m.id).1 = store ∧
    ∀ n, m ∈ sweepIter env batch store n ∧
      m ∈ pendingOf (sweepIter env batch store n) batch := by
  have hreg := register_hash_already env m.message_hash hc ha hv
  have hreg1 : (register_hash env m.message_hash).1 = none := by rw [hreg]
  have hpend : ∀ s, m ∈ s → s.length ≤ batch → m ∈ pendingOf s batch := by
    intro s hms hlen2
    have hmf : m ∈ s.filter (fun x => x.blockchain_tx_hash.isNone) :=
      List.mem_filter.mpr ⟨hms, by rw [hnone]; rfl⟩
    rw [pendingOf, List.take_of_length_le (le_trans (List.length_filter_le _ _) hlen2)]
    exact hmf
  have hlen' : ∀ n, (sweepIter env batch store n).length = store.length := by
    intro n
    have := congrArg List.length (sweepIter_ids env batch store n)
    simpa using this
  have hnd' : ∀ n, ((sweepIter env batch store n).map Message.id).Nodup := by
    intro n
    rw [sweepIter_ids]
    exact hnd
  have hmem : ∀ n, m ∈ sweepIter env batch store n := by
    intro n
    induction n with
    | zero => exact hm
    | succ k ih =>
      rw [sweepIter]
      exact sweep_limit_unanchorable env (sweepIter env batch store k) batch
        (hnd' k) m ih hnone hreg1
  refine ⟨hreg, ?_, ?_⟩
  · have hf : store.find? (fun x => x.id == m.id) = some m :=
      find?_eq_of_nodup store m hnd hm
    unfold notarize_message_async
    rw [hf]
    simp [hnone, optTruthy, hreg1]
  · intro n
    exact ⟨hmem n, hpend (sweepIter env batch store n) (hmem n)
      (le_trans (Nat.le_of_eq (hlen' n)) hlen)⟩

/-- Witness for claim C10: one unanchored message whose hash the ledger
reports as registered. -/
theorem claim10_witness :
    (([msgU1].map Message.id).Nodup ∧ msgU1 ∈ [msgU1] ∧
      msgU1.blockchain_tx_hash = none ∧ envDup.contractLoaded = true ∧
      envDup.accountLoaded = true ∧
      envDup.verifyResult (normalizeHash msgU1.message_hash) = true ∧
      ([msgU1] : List Message).length ≤ 3) ∧
    (register_hash envDup msgU1.message_hash =
      (none, [LedgerEvent.verifyCall (normalizeHash msgU1.message_hash)]) ∧
    (notarize_message_async envDup [msgU1] msgU1.id).1 = [msgU1] ∧
    ∀ n, msgU1 ∈ sweepIter envDup 3 [msgU1] n ∧
      msgU1 ∈ pendingOf (sweepIter envDup 3 [msgU1] n) 3) :=
  ⟨⟨by decide, by decide, by decide, rfl, rfl, rfl, by decide⟩,
    claim10_already_registered_starves envDup [msgU1] 3 msgU1 (by decide) (by decide)
      (by decide) rfl rfl rfl (by decide)⟩
